import Mathlib

/-!
Verification development for the `mediavert` repository (the `audiovert`
crate).  The definitions below are shallow embeddings of the Rust source:

* `Format`, `FromCondition`, `ToCondition`, `Condition` from
  `crates/audiovert/src/format.rs` and `crates/audiovert/src/condition.rs`;
* `FormatSet`/`toFormats` model the `BTreeSet<Format>` accumulation in
  `cli.rs::run` / `Config::populate` (a finite set over the five-element
  `Format` enumeration, listed in declared order);
* `Source`, `TransferKind`, `TaskKind`, `Task` from
  `crates/audiovert/src/tasks.rs` and `config.rs` (the `FileId` indirection
  through the registry `Db` is inlined: a file source carries its resolved
  path directly);
* `planPair` is the per-(source, target-format) body of `Config::populate`
  (`config.rs` lines 183-278; the same logic appears for plain-file sources
  in `cli.rs` lines 333-427), with the destination path precomputed and the
  filesystem abstracted as an existence predicate `fs : Path -> Bool`;
* `execTask`/`execMain` embed the per-task body of the execution loop in
  `cli.rs::run` (lines 462-595); external outcomes (encoder exit status,
  directory creation, rename/transfer success) come from an `ExecEnv`
  oracle, and the observable actions are recorded as an `Event` trace;
* `sanitize`, `Parts.append_to` from `crates/audiovert/src/meta.rs`.

Paths are modelled as lists of characters; `PathBuf::with_added_extension`
appends a dot and the extension, and `PathBuf::push` of a sanitized segment
appends one path component.
-/

namespace Audiovert

/-- Closed audio-format enumeration, `format.rs` lines 21-28, in declared
order: `Aac`, `Flac`, `Mp3`, `Ogg`, `Wav`. -/
inductive Format where
  | aac
  | flac
  | mp3
  | ogg
  | wav
deriving DecidableEq, Repr

/-- Declared (derived `Ord`) position of a format in the enumeration. -/
def formatIdx : Format → Nat
  | Format.aac => 0
  | Format.flac => 1
  | Format.mp3 => 2
  | Format.ogg => 3
  | Format.wav => 4

/-- `Format::is_lossless`, `format.rs` lines 44-46. -/
def Format.is_lossless : Format → Bool
  | Format.flac => true
  | Format.wav => true
  | _ => false

/-- `FromCondition`, `condition.rs` lines 31-36. -/
inductive FromCondition where
  | lossless
  | lossy
  | exact (f : Format)
deriving DecidableEq, Repr

/-- `FromCondition::matches`, `condition.rs` lines 49-55. -/
def FromCondition.matches : FromCondition → Format → Bool
  | FromCondition.lossless, f => f.is_lossless
  | FromCondition.lossy, f => !f.is_lossless
  | FromCondition.exact g, f => g == f

/-- `ToCondition`, `condition.rs` lines 81-85. -/
inductive ToCondition where
  | exact (f : Format)
  | same
deriving DecidableEq, Repr

/-- `ToCondition::to_format`, `condition.rs` lines 87-95. -/
def ToCondition.to_format : ToCondition → Format → Format
  | ToCondition.exact g, _ => g
  | ToCondition.same, f => f

/-- `Condition`, `condition.rs` lines 109-119. -/
inductive Condition where
  | same
  | fromTo (fromCond : FromCondition) (toCond : ToCondition)
  | toOnly (toCond : ToCondition)
deriving DecidableEq, Repr

/-- `Condition::to_format`, `condition.rs` lines 121-136. -/
def Condition.to_format : Condition → Format → Option Format
  | Condition.same, f => some f
  | Condition.toOnly t, f => some (t.to_format f)
  | Condition.fromTo fc t, f =>
    if fc.matches f then some (t.to_format f) else none

/-- The default rule pair installed by `cli.rs::entry` (lines 239-249) when
no `--conversion` flag is given: `lossless=mp3` then `lossy=same`. -/
def defaultConditions : List Condition :=
  [Condition.fromTo FromCondition.lossless (ToCondition.exact Format.mp3),
   Condition.fromTo FromCondition.lossy ToCondition.same]

/-- Finite set of formats, modelling the `BTreeSet<Format>` used for target
accumulation: one membership flag per declared format. -/
structure FormatSet where
  aac : Bool
  flac : Bool
  mp3 : Bool
  ogg : Bool
  wav : Bool
deriving DecidableEq, Repr

/-- The empty set of formats. -/
def FormatSet.empty : FormatSet := ⟨false, false, false, false, false⟩

/-- `BTreeSet::insert` for formats: set the flag of the inserted format. -/
def FormatSet.insert (s : FormatSet) : Format → FormatSet
  | Format.aac => { s with aac := true }
  | Format.flac => { s with flac := true }
  | Format.mp3 => { s with mp3 := true }
  | Format.ogg => { s with ogg := true }
  | Format.wav => { s with wav := true }

/-- Set membership for `FormatSet`. -/
def FormatSet.mem (s : FormatSet) : Format → Bool
  | Format.aac => s.aac
  | Format.flac => s.flac
  | Format.mp3 => s.mp3
  | Format.ogg => s.ogg
  | Format.wav => s.wav

/-- Iteration of a `BTreeSet<Format>` yields its elements in the key order,
which for the derived `Ord` on `Format` is the declared order. -/
def FormatSet.toList (s : FormatSet) : List Format :=
  (if s.aac then [Format.aac] else []) ++
  (if s.flac then [Format.flac] else []) ++
  (if s.mp3 then [Format.mp3] else []) ++
  (if s.ogg then [Format.ogg] else []) ++
  (if s.wav then [Format.wav] else [])

/-- One step of target accumulation: `to_formats.extend(c.to_format(from))`
(`cli.rs` line 294, `config.rs` line 138) inserts the result when it is
`Some` and does nothing when it is `None`. -/
def extendStep (srcFormat : Format) (s : FormatSet) (c : Condition) : FormatSet :=
  match c.to_format srcFormat with
  | some g => s.insert g
  | none => s

/-- Target formats of a source format under a list of user conditions:
evaluate each condition and union the non-`None` results into the ordered
set (`cli.rs` lines 291-295, `config.rs` lines 135-139). -/
def toFormats (conds : List Condition) (srcFormat : Format) : List Format :=
  (conds.foldl (extendStep srcFormat) FormatSet.empty).toList

/-- Paths are modelled as lists of characters. -/
abbrev Path := List Char

/-- `PathBuf::with_added_extension`: append a dot and the extension. -/
def withAddedExtension (p : Path) (ext : List Char) : Path :=
  p ++ '.' :: ext

/-- `Source`, `config.rs` lines 578-593: a plain file (registry lookup of
its `FileId` inlined to the resolved path) or an entry inside an archive. -/
inductive Source where
  | file (path : Path)
  | archive (id : Nat) (rel : Path)
deriving DecidableEq, Repr

/-- `Db::as_file`, `config.rs` lines 570-575: the path if the source is a
regular file, `None` for archive-resident sources. -/
def Source.as_file : Source → Option Path
  | Source.file p => some p
  | Source.archive _ _ => none

/-- `TransferKind`, `tasks.rs` lines 36-41. -/
inductive TransferKind where
  | copy
  | link
  | move
deriving DecidableEq, Repr

/-- `TaskKind`, `tasks.rs` lines 65-79. -/
inductive TaskKind where
  | convert (part_path : Path) (fromFormat toFormat : Format) (converted : Bool)
  | transfer (kind : TransferKind)
deriving DecidableEq, Repr

/-- `TaskKind::is_completed`, `tasks.rs` lines 81-89: a `Transfer` always
reports completed, a `Convert` reports its `converted` flag. -/
def TaskKind.is_completed : TaskKind → Bool
  | TaskKind.convert _ _ _ c => c
  | TaskKind.transfer _ => true

/-- `Task`, `tasks.rs` lines 107-115. -/
structure Task where
  index : Nat
  kind : TaskKind
  source : Source
  to_path : Path
  moved : Bool
  pre_remove : List (String × Path)
deriving DecidableEq, Repr

/-- `Task::is_completed`, `tasks.rs` lines 117-121. -/
def Task.is_completed (t : Task) : Bool :=
  t.kind.is_completed && t.moved && t.pre_remove.isEmpty

/-- Reason string attached to a forced-overwrite pre-removal
(`config.rs` line 232, `cli.rs` line 387). -/
def destReason : String := "destination path (--force)"

/-- Reason string attached to a stale-partial-file pre-removal
(`config.rs` line 257, `cli.rs` line 406). -/
def partReason : String := "partial conversion file"

/-- The configuration fields consulted by the per-pair planning step. -/
structure PlanConfig where
  force : Bool
  move : Bool
  forcedBitrates : List Format
  part_ext : List Char
deriving Repr

/-- Transfer-kind selection of `Config::populate` (`config.rs` lines
241-250): a plain-file source transfers by `Move` when `--move` was
requested and by `Link` otherwise; an archive-resident source always
transfers by `Copy`. -/
def transferKindFor (cfg : PlanConfig) (source : Source) : TransferKind :=
  match source with
  | Source.file _ => if cfg.move then TransferKind.move else TransferKind.link
  | Source.archive _ _ => TransferKind.copy

/-- Per-(source, target-format) body of `Config::populate` (`config.rs`
lines 183-278; same logic for plain-file sources in `cli.rs` lines
333-427), with the destination path `to_path` precomputed and the
filesystem abstracted as the existence predicate `fs`.  Returns `none`
when the pair is silently dropped (source path equals destination path),
otherwise the planned `Task` together with a flag recording whether an
"already exists" diagnostic was pushed. -/
def planPair (cfg : PlanConfig) (fs : Path → Bool) (source : Source)
    (fromFormat toFormat : Format) (to_path : Path) (index : Nat) :
    Option (Task × Bool) :=
  if source.as_file = some to_path then
    none
  else
    let destExists := fs to_path
    let already := destExists && !cfg.force
    let pre1 : List (String × Path) :=
      if destExists && cfg.force then [(destReason, to_path)] else []
    if fromFormat == toFormat && !(cfg.forcedBitrates.contains fromFormat) then
      some ({ index := index,
              kind := TaskKind.transfer (transferKindFor cfg source),
              source := source, to_path := to_path, moved := already,
              pre_remove := pre1 }, already)
    else
      let part := withAddedExtension to_path cfg.part_ext
      let pre2 : List (String × Path) :=
        if fs part then [(partReason, part)] else []
      some ({ index := index,
              kind := TaskKind.convert part fromFormat toFormat already,
              source := source, to_path := to_path, moved := already,
              pre_remove := pre1 ++ pre2 }, already)

/-- Filesystem actions dispatched by `Db::move_to`. -/
inductive FsAction where
  | writeContents (to_path : Path)
  | hardLink (src to_path : Path)
  | rename (src to_path : Path)
  | copyFile (src to_path : Path)
deriving DecidableEq, Repr

/-- `Db::move_to`, `config.rs` lines 513-541: dispatch of a transfer on the
source variant and transfer kind; archive-resident sources refuse `Link`
and `Move`, and `Copy` writes the decoded bytes.  The filesystem calls are
abstracted into the returned `FsAction`. -/
def Db.move_to (source : Source) (to_path : Path) (kind : TransferKind) :
    Except String FsAction :=
  match source with
  | Source.archive _ _ =>
    match kind with
    | TransferKind.link => Except.error "cannot link from archive"
    | TransferKind.move => Except.error "cannot move from archive"
    | TransferKind.copy => Except.ok (FsAction.writeContents to_path)
  | Source.file p =>
    match kind with
    | TransferKind.link => Except.ok (FsAction.hardLink p to_path)
    | TransferKind.move => Except.ok (FsAction.rename p to_path)
    | TransferKind.copy => Except.ok (FsAction.copyFile p to_path)

/-- Oracle for the external outcomes consulted by one execution step:
dry-run flag, `make_dir` results, encoder spawn/exit status (`none` is a
spawn failure), rename and transfer results. -/
structure ExecEnv where
  dryRun : Bool
  mkPartialOk : Bool
  spawn : Option Bool
  mkRenameOk : Bool
  renameOk : Bool
  mkTransferOk : Bool
  transferOk : Bool
deriving DecidableEq, Repr

/-- Observable actions of one execution step, in order of occurrence. -/
inductive Event where
  | remove (reason : String) (path : Path)
  | encode (source : Source) (fromFormat toFormat : Format) (part : Path)
  | renamePart (part to_path : Path)
  | transfer (kind : TransferKind) (source : Source) (to_path : Path)
deriving DecidableEq, Repr

/-- Whether an event is a pre-removal. -/
def isRemoveEvent : Event → Bool
  | Event.remove _ _ => true
  | _ => false

/-- Whether an event is an encoder invocation (the convert step). -/
def isEncodeEvent : Event → Bool
  | Event.encode _ _ _ _ => true
  | _ => false

/-- The pre-removal events drained from a task's `pre_remove` queue
(`cli.rs` lines 473-488). -/
def mkRemoveEvents (t : Task) : List Event :=
  t.pre_remove.map (fun rp => Event.remove rp.1 rp.2)

/-- Per-kind body of the execution loop (`cli.rs` lines 490-594), run after
the pre-removals have been drained.  `make_dir` returns true under dry-run
(`cli.rs` lines 153-155, `config.rs` lines 305-307), hence the
`env.dryRun || _` guards; under dry-run no process is spawned and
`converted`/`moved` are set directly (`cli.rs` lines 535-536, 559-560). -/
def execMain (env : ExecEnv) (t : Task) : Task × List Event :=
  match t.kind with
  | TaskKind.convert part a b conv =>
    if conv then (t, [])
    else if !(env.dryRun || env.mkPartialOk) then (t, [])
    else
      match (if env.dryRun then some true else env.spawn) with
      | none => (t, [Event.encode t.source a b part])
      | some ok =>
        if ok && !t.moved then
          if !(env.dryRun || env.mkRenameOk) then
            ({ t with kind := TaskKind.convert part a b ok },
             [Event.encode t.source a b part])
          else if env.dryRun || env.renameOk then
            ({ t with kind := TaskKind.convert part a b ok, moved := true },
             [Event.encode t.source a b part, Event.renamePart part t.to_path])
          else
            ({ t with kind := TaskKind.convert part a b ok },
             [Event.encode t.source a b part, Event.renamePart part t.to_path])
        else
          ({ t with kind := TaskKind.convert part a b ok },
           [Event.encode t.source a b part])
  | TaskKind.transfer k =>
    if t.moved then (t, [])
    else if !(env.dryRun || env.mkTransferOk) then (t, [])
    else if env.dryRun || env.transferOk then
      ({ t with moved := true }, [Event.transfer k t.source t.to_path])
    else (t, [Event.transfer k t.source t.to_path])

/-- One iteration of the execution loop for a single task (`cli.rs` lines
462-595): completed tasks are skipped outright (lines 463-465); otherwise
the queued pre-removals are drained first (lines 473-488) and the per-kind
body runs.  Returns the updated task and the trace of observable actions. -/
def execTask (env : ExecEnv) (t : Task) : Task × List Event :=
  if t.is_completed then (t, [])
  else
    let res := execMain env { t with pre_remove := [] }
    (res.1, mkRemoveEvents t ++ res.2)

/-- Rust `char::is_whitespace` (the Unicode `White_Space` property), used
by `meta.rs::sanitize`. -/
def rustIsWhitespace (c : Char) : Bool :=
  let n := c.toNat
  n = 0x09 || n = 0x0A || n = 0x0B || n = 0x0C || n = 0x0D || n = 0x20 ||
  n = 0x85 || n = 0xA0 || n = 0x1680 || (0x2000 ≤ n && n ≤ 0x200A) ||
  n = 0x2028 || n = 0x2029 || n = 0x202F || n = 0x205F || n = 0x3000

/-- The nested `map` function of `meta.rs::sanitize` (lines 243-255):
replacement text for the filesystem-illegal characters, `None` for every
other character. -/
def mapChar (c : Char) : Option (List Char) :=
  if c = '\\' then some ['+']
  else if c = '/' then some ['+']
  else if c = '<' then some []
  else if c = '>' then some []
  else if c = '?' then some []
  else if c = '*' then some ['-']
  else if c = '|' then some []
  else if c = '"' then some []
  else none

/-- A character that makes the first scan of `sanitize` break into the
normalizing pass: a colon, or any character `map` replaces. -/
def isSpecialChar (c : Char) : Bool :=
  c = ':' || (mapChar c).isSome

/-- The normalizing loop of `meta.rs::sanitize` (lines 257-284): a colon
followed by whitespace becomes " - " (consuming that whitespace), a bare
colon becomes "-", mapped characters are replaced, and a plain whitespace
character directly after another emitted whitespace is skipped
(`last_whitespace` is the second argument). -/
def sanLoop : List Char → Bool → List Char
  | [], _ => []
  | [c], lw =>
    if c = ':' then ['-']
    else
      match mapChar c with
      | some repl => repl
      | none => if lw && rustIsWhitespace c then [] else [c]
  | c :: c2 :: rest, lw =>
    if c = ':' then
      if rustIsWhitespace c2 then ' ' :: '-' :: ' ' :: sanLoop rest lw
      else '-' :: sanLoop (c2 :: rest) lw
    else
      match mapChar c with
      | some repl => repl ++ sanLoop (c2 :: rest) lw
      | none =>
        if lw && rustIsWhitespace c then sanLoop (c2 :: rest) lw
        else c :: sanLoop (c2 :: rest) (rustIsWhitespace c)

/-- `meta.rs::sanitize` (lines 221-287): the first loop copies the prefix
up to (excluding) the first special character and returns the input
unchanged when there is none; the normalizing loop then processes the
remainder starting at that character. -/
def sanitize (s : List Char) : List Char :=
  let pre := s.takeWhile (fun c => !isSpecialChar c)
  let rest := s.dropWhile (fun c => !isSpecialChar c)
  match rest with
  | [] => s
  | _ :: _ => pre ++ sanLoop rest false

/-- Two-digit zero-padded decimal formatting, Rust's `{:02}` on an
unsigned integer. -/
def fmt02 (n : Nat) : List Char :=
  if n < 10 then '0' :: Nat.toDigits 10 n else Nat.toDigits 10 n

/-- Decimal rendering of a signed integer, Rust's `{}` on an `i16`. -/
def intChars (i : Int) : List Char :=
  (toString i).toList

/-- `Parts`, `meta.rs` lines 14-22: the tag fields used for
metadata-derived naming. -/
structure Parts where
  year : Int
  artist : List Char
  album : List Char
  track : Nat
  title : List Char
  media_type : Option (List Char)
  set : Option (Nat × Nat)

/-- The multi-disc condition of `Parts::append_to` (`meta.rs` lines
190-192): a disc number/total pair is present and the total exceeds 1. -/
def discCond (p : Parts) : Bool :=
  match p.set with
  | some (_, total) => decide (1 < total)
  | none => false

/-- The disc directory segment of `Parts::append_to` (`meta.rs` lines
193-201): the optional media type followed by a space, then the
zero-padded disc number, the whole segment sanitized. -/
def discSegment (p : Parts) (n : Nat) : List Char :=
  sanitize ((match p.media_type with
             | some m => m ++ (' ' :: [])
             | none => []) ++ fmt02 n)

/-- `Parts::append_to`, `meta.rs` lines 174-214, as the list of path
components pushed (each one sanitized): the artist directory, the
"album (year)" directory, an optional disc directory of the optional
media type followed by the zero-padded disc number, and the
"artist - album - track - title" file segment.  The caller appends the
format extension afterwards. -/
def Parts.append_to (p : Parts) : List (List Char) :=
  [sanitize p.artist,
   sanitize (p.album ++ (' ' :: '(' :: []) ++ intChars p.year ++ (')' :: []))] ++
  (match p.set with
   | some (n, total) =>
     if 1 < total then [discSegment p n] else []
   | none => []) ++
  [sanitize (p.artist ++ (' ' :: '-' :: ' ' :: []) ++ p.album ++
             (' ' :: '-' :: ' ' :: []) ++ fmt02 p.track ++
             (' ' :: '-' :: ' ' :: []) ++ p.title)]

/-- Sample configuration: defaults, `--force` not given. -/
def cfgNoForce : PlanConfig :=
  { force := false, move := false, forcedBitrates := [],
    part_ext := "part".toList }

/-- Sample filesystem on which every path exists. -/
def fsAll : Path → Bool := fun _ => true

/-- Sample filesystem on which no path exists. -/
def fsNone : Path → Bool := fun _ => false

/-- Sample plain-file source `a.flac`. -/
def srcFlac : Source := Source.file "a.flac".toList

/-- Sample destination path `a.mp3`. -/
def destMp3 : Path := "a.mp3".toList

/-- Sample partial path `a.mp3.part`. -/
def partMp3 : Path := "a.mp3.part".toList

/-- Sample re-rooted destination path `out/a.mp3`. -/
def outDest : Path := "out/a.mp3".toList

/-- The task planned for `srcFlac -> destMp3` when both the destination and
the stale partial file exist and `--force` is not given. -/
def existsTask : Task :=
  { index := 0,
    kind := TaskKind.convert partMp3 Format.flac Format.mp3 true,
    source := srcFlac, to_path := destMp3, moved := true,
    pre_remove := [(partReason, partMp3)] }

/-- A freshly planned, still pending Convert task. -/
def pendingTask : Task :=
  { index := 0,
    kind := TaskKind.convert partMp3 Format.flac Format.mp3 false,
    source := srcFlac, to_path := destMp3, moved := false,
    pre_remove := [] }

/-- A fully completed Transfer task. -/
def doneTask : Task :=
  { index := 0, kind := TaskKind.transfer TransferKind.link,
    source := Source.file [], to_path := [], moved := true,
    pre_remove := [] }

/-- The Link transfer task planned for a same-format plain-file pair. -/
def linkTask : Task :=
  { index := 0, kind := TaskKind.transfer TransferKind.link,
    source := Source.file destMp3, to_path := outDest, moved := false,
    pre_remove := [] }

/-- Sample execution environment: not a dry run, every external outcome
succeeds. -/
def someEnv : ExecEnv :=
  { dryRun := false, mkPartialOk := true, spawn := some true,
    mkRenameOk := true, renameOk := true, mkTransferOk := true,
    transferOk := true }

/-- Sample tag record: artist "A", album "B", year 2000, track 1,
title "T", no media type, no disc set. -/
def plainParts : Parts :=
  { year := 2000, artist := ['A'], album := ['B'], track := 1,
    title := ['T'], media_type := none, set := none }

/-- Sample multi-disc tag record: artist "A", album "B", year 1999,
track 2, title "T", media type "CD", disc 1 of 2. -/
def discParts : Parts :=
  { year := 1999, artist := ['A'], album := ['B'], track := 2,
    title := ['T'], media_type := some ('C' :: 'D' :: []),
    set := some (1, 2) }

/-- C1: a `Task` is fully done exactly when its kind reports completed, its
`moved` flag is set and no pending pre-removals remain; a `Transfer` kind
always reports completed while a `Convert` kind reports its `converted`
flag; and the executor performs no action at all on a task in this state
(its step returns the task unchanged with an empty trace), which is what
makes a second run a no-op for already-finished tasks. -/
theorem task_fully_done_iff (t : Task) (env : ExecEnv) :
    (t.is_completed = (t.kind.is_completed && t.moved && t.pre_remove.isEmpty)) ∧
    (∀ k, (TaskKind.transfer k).is_completed = true) ∧
    (∀ pp a b c, (TaskKind.convert pp a b c).is_completed = c) ∧
    (t.is_completed = true → execTask env t = (t, [])) := by
  refine ⟨rfl, fun _ => rfl, fun _ _ _ _ => rfl, fun h => ?_⟩
  simp [execTask, h]

/-- Witness for C1: the executor step on a concrete completed task is a
no-op. -/
theorem task_fully_done_iff_witness : execTask someEnv doneTask = (doneTask, []) :=
  (task_fully_done_iff doneTask someEnv).2.2.2 (by decide)

/-- C10: the `Lossy` predicate matches exactly the formats `Lossless` does
not (the lossless ones being `flac` and `wav`), so the two predicates
partition the five formats, and the default rule pair
(lossless to mp3, lossy to same) assigns every format exactly one target:
`mp3` for lossless sources and the source format itself for lossy ones. -/
theorem lossy_lossless_partition (f : Format) :
    (FromCondition.lossy.matches f = !(FromCondition.lossless.matches f)) ∧
    (FromCondition.lossless.matches f = f.is_lossless) ∧
    (f.is_lossless = (f == Format.flac || f == Format.wav)) ∧
    (toFormats defaultConditions f = [if f.is_lossless then Format.mp3 else f]) := by
  cases f <;> exact ⟨rfl, rfl, rfl, rfl⟩

/-- Inserting two formats into a `FormatSet` commutes. -/
theorem FormatSet.insert_comm (s : FormatSet) (g h : Format) :
    (s.insert g).insert h = (s.insert h).insert g := by
  cases g <;> cases h <;> rfl

/-- The accumulation step for two conditions commutes. -/
theorem extendStep_comm (f : Format) (s : FormatSet) (c1 c2 : Condition) :
    extendStep f (extendStep f s c1) c2 = extendStep f (extendStep f s c2) c1 := by
  unfold extendStep
  rcases h1 : c1.to_format f with _ | g1 <;>
    rcases h2 : c2.to_format f with _ | g2 <;>
    simp [FormatSet.insert_comm]

/-- Folding the accumulation step over permuted condition lists gives the
same set. -/
theorem foldl_extendStep_perm {l1 l2 : List Condition} (h : l1.Perm l2)
    (f : Format) : ∀ s : FormatSet,
    l1.foldl (extendStep f) s = l2.foldl (extendStep f) s := by
  induction h with
  | nil => intro s; rfl
  | cons x _ ih => intro s; simp only [List.foldl_cons]; exact ih _
  | swap x y l => intro s; simp only [List.foldl_cons, extendStep_comm]
  | trans _ _ ih1 ih2 => intro s; rw [ih1 s, ih2 s]

/-- Listing a `FormatSet` contains exactly its members. -/
theorem FormatSet.mem_toList (s : FormatSet) (g : Format) :
    g ∈ s.toList ↔ s.mem g = true := by
  rcases s with ⟨a, b, c, d, e⟩
  cases g <;> cases a <;> cases b <;> cases c <;> cases d <;> cases e <;> decide

/-- Membership after an insertion. -/
theorem FormatSet.mem_insert (s : FormatSet) (g h : Format) :
    (s.insert g).mem h = true ↔ (h = g ∨ s.mem h = true) := by
  rcases s with ⟨a, b, c, d, e⟩
  cases g <;> cases h <;>
    simp [FormatSet.insert, FormatSet.mem]

/-- Membership in the accumulated set: a format is present exactly when it
was already present or some condition in the list produces it. -/
theorem mem_foldl_extendStep (f : Format) (g : Format) :
    ∀ (conds : List Condition) (s : FormatSet),
    (conds.foldl (extendStep f) s).mem g = true ↔
      (s.mem g = true ∨ ∃ c ∈ conds, c.to_format f = some g) := by
  intro conds
  induction conds with
  | nil => intro s; simp
  | cons c rest ih =>
    intro s
    simp only [List.foldl_cons, ih, List.mem_cons]
    rcases h : c.to_format f with _ | g1
    · constructor
      · rintro (hs | ⟨c2, hc2, hf⟩)
        · simp [extendStep, h] at hs
          exact Or.inl hs
        · exact Or.inr ⟨c2, Or.inr hc2, hf⟩
      · rintro (hs | ⟨c2, hc2 | hc2, hf⟩)
        · left; simp [extendStep, h]; exact hs
        · subst hc2; rw [h] at hf; cases hf
        · exact Or.inr ⟨c2, hc2, hf⟩
    · constructor
      · rintro (hs | ⟨c2, hc2, hf⟩)
        · simp only [extendStep, h] at hs
          rcases (FormatSet.mem_insert s g1 g).mp hs with h1 | h1
          · exact Or.inr ⟨c, Or.inl rfl, by rw [h, h1]⟩
          · exact Or.inl h1
        · exact Or.inr ⟨c2, Or.inr hc2, hf⟩
      · rintro (hs | ⟨c2, hc2 | hc2, hf⟩)
        · left
          simp only [extendStep, h]
          exact (FormatSet.mem_insert s g1 g).mpr (Or.inr hs)
        · subst hc2
          rw [h] at hf
          injection hf with hf
          left
          simp only [extendStep, h]
          exact (FormatSet.mem_insert s g1 g).mpr (Or.inl hf.symm)
        · exact Or.inr ⟨c2, hc2, hf⟩

/-- The listing of any `FormatSet` is strictly increasing in the declared
format order. -/
theorem FormatSet.toList_chain (s : FormatSet) :
    List.Chain' (fun a b => formatIdx a < formatIdx b) s.toList := by
  rcases s with ⟨a, b, c, d, e⟩
  cases a <;> cases b <;> cases c <;> cases d <;> cases e <;>
    simp [FormatSet.toList, List.chain'_cons, formatIdx]

/-- The listing of any `FormatSet` has no duplicates. -/
theorem FormatSet.toList_nodup (s : FormatSet) : s.toList.Nodup := by
  rcases s with ⟨a, b, c, d, e⟩
  cases a <;> cases b <;> cases c <;> cases d <;> cases e <;>
    simp [FormatSet.toList, List.nodup_cons]

/-- C2: the target set computed from the user conditions contains exactly
the formats some condition maps the source to, is listed strictly in the
`Format` enumeration's declared order without duplicates, and is invariant
under permuting the condition list; in particular the two orderings of
the rules `lossless=mp3` and `flac=ogg` both send a `flac` source to
exactly `[mp3, ogg]`. -/
theorem target_set_ordered_union (conds conds' : List Condition) (f g : Format) :
    (conds.Perm conds' → toFormats conds f = toFormats conds' f) ∧
    (g ∈ toFormats conds f ↔ ∃ c ∈ conds, c.to_format f = some g) ∧
    List.Chain' (fun a b => formatIdx a < formatIdx b) (toFormats conds f) ∧
    (toFormats conds f).Nodup ∧
    toFormats [Condition.fromTo FromCondition.lossless (ToCondition.exact Format.mp3),
               Condition.fromTo (FromCondition.exact Format.flac) (ToCondition.exact Format.ogg)]
      Format.flac = [Format.mp3, Format.ogg] ∧
    toFormats [Condition.fromTo (FromCondition.exact Format.flac) (ToCondition.exact Format.ogg),
               Condition.fromTo FromCondition.lossless (ToCondition.exact Format.mp3)]
      Format.flac = [Format.mp3, Format.ogg] := by
  refine ⟨fun hp => ?_, ?_, FormatSet.toList_chain _, FormatSet.toList_nodup _, rfl, rfl⟩
  · unfold toFormats
    rw [foldl_extendStep_perm hp f]
  · unfold toFormats
    rw [FormatSet.mem_toList, mem_foldl_extendStep]
    simp [FormatSet.empty, FormatSet.mem]
    cases g <;> simp [FormatSet.mem]

/-- Witness for C2: swapping the two concrete rules leaves the computed
target list unchanged. -/
theorem target_set_ordered_union_witness :
    toFormats [Condition.fromTo FromCondition.lossless (ToCondition.exact Format.mp3),
               Condition.fromTo (FromCondition.exact Format.flac) (ToCondition.exact Format.ogg)]
      Format.flac =
    toFormats [Condition.fromTo (FromCondition.exact Format.flac) (ToCondition.exact Format.ogg),
               Condition.fromTo FromCondition.lossless (ToCondition.exact Format.mp3)]
      Format.flac :=
  (target_set_ordered_union _ _ Format.flac Format.mp3).1 (List.Perm.swap _ _ _)

/-- The replacement text a mapped character produces is one of `+`, `-`,
or nothing. -/
theorem mapChar_cases (c1 : Char) (repl : List Char)
    (h : mapChar c1 = some repl) : repl = ['+'] ∨ repl = ['-'] ∨ repl = [] := by
  unfold mapChar at h
  split_ifs at h <;> simp_all

/-- An unmapped non-colon character is not special. -/
theorem mapChar_none_not_special (c : Char) (h1 : mapChar c = none)
    (h2 : ¬(c = ':')) : isSpecialChar c = false := by
  simp [isSpecialChar, h1, h2]

/-- Every character emitted by the normalizing loop is non-special: the
loop replaces every mapped character and colon, and the replacement texts
consist of plain characters. -/
theorem sanLoop_not_special :
    ∀ (n : Nat) (l : List Char), l.length ≤ n → ∀ (lw : Bool), ∀ c ∈ sanLoop l lw,
      isSpecialChar c = false := by
  intro n
  induction n with
  | zero =>
    intro l hl lw c hc
    have hnil : l = [] := List.eq_nil_of_length_eq_zero (Nat.le_zero.mp hl)
    subst hnil
    simp [sanLoop] at hc
  | succ n ih =>
    intro l hl lw c hc
    rcases l with _ | ⟨c1, rest⟩
    · simp [sanLoop] at hc
    rcases rest with _ | ⟨c2, rest2⟩
    · by_cases h1 : c1 = ':'
      · simp only [sanLoop, if_pos h1, List.mem_singleton] at hc
        subst hc; decide
      · simp only [sanLoop, if_neg h1] at hc
        rcases hm : mapChar c1 with _ | repl
        · rw [hm] at hc
          split_ifs at hc with h2
          · simp at hc
          · simp only [List.mem_singleton] at hc
            rw [hc]
            exact mapChar_none_not_special c1 hm h1
        · rw [hm] at hc
          rcases mapChar_cases c1 repl hm with h | h | h <;> subst h <;>
            simp_all <;> subst hc <;> decide
    · have hlen1 : (c2 :: rest2).length ≤ n := by
        simp only [List.length_cons] at hl ⊢; omega
      have hlen2 : rest2.length ≤ n := by
        simp only [List.length_cons] at hl; omega
      by_cases h1 : c1 = ':'
      · simp only [sanLoop, if_pos h1] at hc
        split_ifs at hc with h2
        · simp only [List.mem_cons] at hc
          rcases hc with hc | hc | hc | hc
          · subst hc; decide
          · subst hc; decide
          · subst hc; decide
          · exact ih rest2 hlen2 lw c hc
        · simp only [List.mem_cons] at hc
          rcases hc with hc | hc
          · subst hc; decide
          · exact ih (c2 :: rest2) hlen1 lw c hc
      · simp only [sanLoop, if_neg h1] at hc
        rcases hm : mapChar c1 with _ | repl
        · rw [hm] at hc
          split_ifs at hc with h2
          · exact ih (c2 :: rest2) hlen1 lw c hc
          · simp only [List.mem_cons] at hc
            rcases hc with hc | hc
            · rw [hc]
              exact mapChar_none_not_special c1 hm h1
            · exact ih (c2 :: rest2) hlen1 (rustIsWhitespace c1) c hc
        · rw [hm] at hc
          rcases List.mem_append.mp hc with hc | hc
          · rcases mapChar_cases c1 repl hm with h | h | h <;> subst h <;>
              simp_all <;> subst hc <;> decide
          · exact ih (c2 :: rest2) hlen1 lw c hc

/-- Every character of a sanitized string is non-special: the prefix kept
from the first scan contains no special character by construction, and the
normalizing loop emits none. -/
theorem sanitize_not_special (s : List Char) :
    ∀ c ∈ sanitize s, isSpecialChar c = false := by
  intro c hc
  simp only [sanitize] at hc
  rcases hd : s.dropWhile (fun c => !isSpecialChar c) with _ | ⟨x, xs⟩
  · rw [hd] at hc
    have := (List.dropWhile_eq_nil_iff.mp hd) c hc
    simpa using this
  · rw [hd] at hc
    rcases List.mem_append.mp hc with hc | hc
    · have := List.mem_takeWhile_imp hc
      simpa using this
    · exact sanLoop_not_special (x :: xs).length (x :: xs) le_rfl false c hc

/-- A string without special characters passes the first scan of
`sanitize` untouched and is returned unchanged. -/
theorem sanitize_unchanged (s : List Char)
    (h : ∀ c ∈ s, isSpecialChar c = false) : sanitize s = s := by
  have hd : s.dropWhile (fun c => !isSpecialChar c) = [] :=
    List.dropWhile_eq_nil_iff.mpr (by intro x hx; simp [h x hx])
  simp only [sanitize]
  rw [hd]

/-- C8 counterexample: the input "a  b" contains no special character, so
`sanitize` returns it unchanged and its consecutive whitespace is NOT
collapsed to one space, contrary to the claim that consecutive whitespace
always collapses. -/
theorem sanitize_whitespace_not_collapsed :
    sanitize ('a' :: ' ' :: ' ' :: 'b' :: []) = ('a' :: ' ' :: ' ' :: 'b' :: []) ∧
    ('a' :: ' ' :: ' ' :: 'b' :: []) ≠ ('a' :: ' ' :: 'b' :: []) := by
  exact ⟨rfl, by decide⟩

/-- C8 (amended): `sanitize` replaces or drops the filesystem-illegal
characters as stated (backslash and slash to `+`; `<`, `>`, `?`, `|`, `"`
removed; `*` to `-`), turns a colon followed by whitespace into " - " and
a bare colon into `-`; whitespace collapsing applies only in the
normalized portion that starts at the first special character, and a
string without any special character is returned unchanged.  In
particular "AC/DC" becomes "AC+DC", "Greatest Hits: Vol. 1" becomes
"Greatest Hits - Vol. 1", and no output ever contains a raw `/` or
`:`. -/
theorem sanitize_sanitization :
    (∀ s : List Char, (∀ c ∈ s, isSpecialChar c = false) → sanitize s = s) ∧
    (∀ s : List Char, ∀ c ∈ sanitize s, isSpecialChar c = false) ∧
    (∀ s : List Char, ('/' ∈ sanitize s → False) ∧ (':' ∈ sanitize s → False)) ∧
    sanitize "AC/DC".toList = "AC+DC".toList ∧
    sanitize "Greatest Hits: Vol. 1".toList = "Greatest Hits - Vol. 1".toList ∧
    sanitize ['\\'] = ['+'] ∧ sanitize ['/'] = ['+'] ∧
    sanitize ['<'] = [] ∧ sanitize ['>'] = [] ∧ sanitize ['?'] = [] ∧
    sanitize ['|'] = [] ∧ sanitize ['"'] = [] ∧ sanitize ['*'] = ['-'] ∧
    sanitize [':'] = ['-'] ∧
    sanitize (':' :: ' ' :: 'x' :: []) = (' ' :: '-' :: ' ' :: 'x' :: []) := by
  refine ⟨sanitize_unchanged, sanitize_not_special, fun s => ⟨fun h => ?_, fun h => ?_⟩,
    rfl, rfl, rfl, rfl, rfl, rfl, rfl, rfl, rfl, rfl, rfl, rfl⟩
  · have := sanitize_not_special s _ h
    simp [isSpecialChar, mapChar] at this
  · have := sanitize_not_special s _ h
    simp [isSpecialChar] at this

/-- Witness for C8: a concrete string without special characters is
returned unchanged. -/
theorem sanitize_sanitization_witness :
    sanitize ('A' :: 'B' :: []) = ('A' :: 'B' :: []) :=
  sanitize_sanitization.1 ('A' :: 'B' :: []) (by decide)

/-- Planning drops a pair exactly when the source is a plain file whose
path equals the computed destination path. -/
theorem planPair_none_iff (cfg : PlanConfig) (fs : Path → Bool) (src : Source)
    (a b : Format) (toP : Path) (i : Nat) :
    planPair cfg fs src a b toP i = none ↔ src.as_file = some toP := by
  unfold planPair
  split
  · simp_all
  · rename_i hns
    simp only [hns, iff_false]
    intro hcontra
    split at hcontra <;> cases hcontra

/-- Characterization of a planned Transfer pair: when source and target
format agree and the format is not forced to re-encode, planning produces
a Transfer task whose transfer kind depends on the source variant and the
`--move` flag, with `moved` set exactly when the destination exists
without `--force`. -/
theorem planPair_transfer_eq (cfg : PlanConfig) (fs : Path → Bool) (src : Source)
    (a b : Format) (toP : Path) (i : Nat) (task : Task) (diag : Bool)
    (h : planPair cfg fs src a b toP i = some (task, diag))
    (hcond : (a == b && !(cfg.forcedBitrates.contains a)) = true) :
    diag = (fs toP && !cfg.force) ∧
    task = { index := i,
             kind := TaskKind.transfer (transferKindFor cfg src),
             source := src, to_path := toP, moved := (fs toP && !cfg.force),
             pre_remove :=
               if fs toP && cfg.force then [(destReason, toP)] else [] } := by
  unfold planPair at h
  split at h
  · cases h
  · simp only [Option.some.injEq, Prod.mk.injEq] at h
    obtain ⟨htask, hdiag⟩ := h
    subst htask
    subst hdiag
    exact ⟨rfl, rfl⟩

/-- Characterization of a planned Convert pair: when the formats differ or
the format is forced to re-encode, planning produces a Convert task on the
partial path, `converted` and `moved` set exactly when the destination
exists without `--force`, and the pre-removal queue holding the forced
destination removal and/or the stale partial file. -/
theorem planPair_convert_eq (cfg : PlanConfig) (fs : Path → Bool) (src : Source)
    (a b : Format) (toP : Path) (i : Nat) (task : Task) (diag : Bool)
    (h : planPair cfg fs src a b toP i = some (task, diag))
    (hcond : (a == b && !(cfg.forcedBitrates.contains a)) = false) :
    diag = (fs toP && !cfg.force) ∧
    task = { index := i,
             kind := TaskKind.convert (withAddedExtension toP cfg.part_ext) a b
               (fs toP && !cfg.force),
             source := src, to_path := toP, moved := (fs toP && !cfg.force),
             pre_remove :=
               (if fs toP && cfg.force then [(destReason, toP)] else []) ++
               (if fs (withAddedExtension toP cfg.part_ext) then
                  [(partReason, withAddedExtension toP cfg.part_ext)] else []) } := by
  unfold planPair at h
  split at h
  · cases h
  · rw [if_neg (by rw [hcond]; exact Bool.false_ne_true)] at h
    simp only [Option.some.injEq, Prod.mk.injEq] at h
    obtain ⟨htask, hdiag⟩ := h
    subst htask
    subst hdiag
    exact ⟨rfl, rfl⟩

/-- A task whose kind reports completed and whose `moved` flag is set gets
no action from the per-kind execution body. -/
theorem execMain_flags (env : ExecEnv) (t : Task)
    (h1 : t.kind.is_completed = true) (h2 : t.moved = true) :
    execMain env t = (t, []) := by
  unfold execMain
  split
  · rename_i pp a b conv heq
    rw [heq] at h1
    simp only [TaskKind.is_completed] at h1
    simp [h1]
  · simp [h2]

/-- The per-kind execution body emits no pre-removal events. -/
theorem execMain_no_remove (env : ExecEnv) (t : Task) :
    ∀ e ∈ (execMain env t).2, isRemoveEvent e = false := by
  intro e he
  unfold execMain at he
  repeat' split at he
  all_goals
    simp only [List.mem_singleton, List.mem_cons, List.not_mem_nil,
      or_false] at he
  all_goals
    first
      | (subst he; rfl)
      | (rcases he with he | he <;> subst he <;> rfl)

/-- Every drained pre-removal event is a removal and not an encoder
invocation. -/
theorem mkRemoveEvents_spec (t : Task) :
    ∀ e ∈ mkRemoveEvents t, isRemoveEvent e = true ∧ isEncodeEvent e = false := by
  intro e he
  simp only [mkRemoveEvents, List.mem_map] at he
  obtain ⟨rp, _, hrp⟩ := he
  subst hrp
  exact ⟨rfl, rfl⟩

/-- The trace of one execution step decomposes as the drained pre-removals
followed by a removal-free tail. -/
theorem execTask_events (env : ExecEnv) (t : Task) :
    ∃ tail, (execTask env t).2 = mkRemoveEvents t ++ tail ∧
      ∀ e ∈ tail, isRemoveEvent e = false := by
  unfold execTask
  by_cases h : t.is_completed = true
  · have h3 : t.pre_remove = [] := by
      unfold Task.is_completed at h
      simp only [Bool.and_eq_true, List.isEmpty_iff] at h
      exact h.2
    refine ⟨[], ?_, by simp⟩
    simp [h, mkRemoveEvents, h3]
  · exact ⟨(execMain env { t with pre_remove := [] }).2, by simp [h],
      execMain_no_remove _ _⟩

/-- A task whose flags are already set receives no encoder invocation from
the executor (only its queued pre-removals run). -/
theorem execTask_no_encode (env : ExecEnv) (t : Task)
    (h1 : t.kind.is_completed = true) (h2 : t.moved = true) :
    ∀ e ∈ (execTask env t).2, isEncodeEvent e = false := by
  intro e he
  unfold execTask at he
  by_cases hc : t.is_completed = true
  · simp [hc] at he
  · simp only [hc, if_false, Bool.false_eq_true] at he
    rw [execMain_flags env { t with pre_remove := [] } h1 h2] at he
    simp only [List.append_nil] at he
    exact (mkRemoveEvents_spec t e he).2

/-- In a non-dry run, the per-kind body turns a pending Convert task into a
converted one only when the spawned encoder reported success. -/
theorem execMain_spawn (env : ExecEnv) (t : Task) (pp : Path) (a b : Format)
    (hdry : env.dryRun = false) (hk : t.kind = TaskKind.convert pp a b false) :
    ∀ pp2 a2 b2, ((execMain env t).1).kind = TaskKind.convert pp2 a2 b2 true →
      env.spawn = some true := by
  intro pp2 a2 b2 h
  unfold execMain at h
  repeat (first | (split at h) | simp_all)

/-- In a non-dry run, one executor step turns a pending Convert task into a
converted one only when the spawned encoder reported success. -/
theorem execTask_spawn (env : ExecEnv) (t : Task) (pp : Path) (a b : Format)
    (hdry : env.dryRun = false) (hk : t.kind = TaskKind.convert pp a b false) :
    ∀ pp2 a2 b2, ((execTask env t).1).kind = TaskKind.convert pp2 a2 b2 true →
      env.spawn = some true := by
  intro pp2 a2 b2 h
  unfold execTask at h
  by_cases hc : t.is_completed = true
  · rw [if_pos hc] at h
    rw [hk] at h
    injection h with e1 e2 e3 e4
    exact absurd e4 Bool.false_ne_true
  · rw [if_neg hc] at h
    exact execMain_spawn env { t with pre_remove := [] } pp a b hdry hk pp2 a2 b2 h

/-- C3 counterexample: with the destination existing, `--force` unset and a
stale partial file also present, planning produces the already-exists
diagnostic but the task is NOT already-complete and the executor does not
skip it (it still runs the queued pre-removal), contrary to the claim that
the task is marked already-complete and skipped. -/
theorem already_exists_not_skipped :
    planPair cfgNoForce fsAll srcFlac Format.flac Format.mp3 destMp3 0 =
      some (existsTask, true) ∧
    existsTask.is_completed = false ∧
    execTask someEnv existsTask ≠ (existsTask, []) := by
  refine ⟨by decide, by decide, by decide⟩

/-- C3 (amended): when the computed destination exists and `--force` is not
set, planning emits the already-exists diagnostic and sets the task's
completion flags (`moved`, and `converted` for a Convert kind), so the
executor never attempts a conversion on it, and the task is skipped
entirely whenever no stale partial file was also queued for removal; when
`--force` is set, removal of the existing destination is queued as a
pre-removal, no diagnostic is emitted, and the task proceeds as
incomplete (`converted = false` for a Convert kind). -/
theorem exists_force_policy (cfg : PlanConfig) (fs : Path → Bool) (src : Source)
    (a b : Format) (toP : Path) (i : Nat) (task : Task) (diag : Bool)
    (h : planPair cfg fs src a b toP i = some (task, diag))
    (hfs : fs toP = true) :
    (cfg.force = false →
       diag = true ∧ task.moved = true ∧ task.kind.is_completed = true ∧
       (∀ env : ExecEnv, ∀ e ∈ (execTask env task).2, isEncodeEvent e = false) ∧
       (fs (withAddedExtension toP cfg.part_ext) = false →
          task.is_completed = true)) ∧
    (cfg.force = true →
       diag = false ∧ task.moved = false ∧
       (destReason, toP) ∈ task.pre_remove ∧
       task.is_completed = false ∧
       ((a == b && !(cfg.forcedBitrates.contains a)) = false →
          task.kind = TaskKind.convert (withAddedExtension toP cfg.part_ext) a b
            false)) := by
  by_cases hcond : (a == b && !(cfg.forcedBitrates.contains a)) = true
  · obtain ⟨hdiag, htask⟩ := planPair_transfer_eq cfg fs src a b toP i task diag h hcond
    subst hdiag
    subst htask
    constructor
    · intro hforce
      refine ⟨by simp [hfs, hforce], by simp [hfs, hforce], rfl, ?_, ?_⟩
      · intro env e he
        exact execTask_no_encode env _ (by rfl) (by simp [hfs, hforce]) e he
      · intro _
        simp [Task.is_completed, TaskKind.is_completed, hfs, hforce]
    · intro hforce
      refine ⟨by simp [hforce], by simp [hforce], by simp [hfs, hforce],
        by simp [Task.is_completed, hforce], fun hc => ?_⟩
      rw [hc] at hcond
      exact absurd hcond Bool.false_ne_true
  · have hcond' : (a == b && !(cfg.forcedBitrates.contains a)) = false := by
      revert hcond
      cases (a == b && !(cfg.forcedBitrates.contains a)) <;> simp
    obtain ⟨hdiag, htask⟩ := planPair_convert_eq cfg fs src a b toP i task diag h hcond'
    subst hdiag
    subst htask
    constructor
    · intro hforce
      refine ⟨by simp [hfs, hforce], by simp [hfs, hforce],
        by simp [TaskKind.is_completed, hfs, hforce], ?_, ?_⟩
      · intro env e he
        exact execTask_no_encode env _
          (by simp [TaskKind.is_completed, hfs, hforce]) (by simp [hfs, hforce]) e he
      · intro hpart
        simp [Task.is_completed, TaskKind.is_completed, hfs, hforce, hpart]
    · intro hforce
      refine ⟨by simp [hforce], by simp [hforce], by simp [hfs, hforce],
        by simp [Task.is_completed, hforce], fun _ => by simp [hfs, hforce]⟩

/-- Witness for C3: in the concrete exists-no-force scenario the planned
task has its `moved` completion flag set. -/
theorem exists_force_policy_witness : existsTask.moved = true :=
  ((exists_force_policy cfgNoForce fsAll srcFlac Format.flac Format.mp3 destMp3 0
      existsTask true (by decide) (by decide)).1 rfl).2.1

/-- C4: for a pair planned as a Convert task, the partial path is the
destination path with the part extension added, and if a file exists there
at planning time its removal is queued in the task's `pre_remove` list;
during execution, the whole trace of a task step is its queued
pre-removals followed by a removal-free tail, so every pre-removal is
performed before the convert step for that destination is attempted. -/
theorem partial_file_pre_removal :
    (∀ (cfg : PlanConfig) (fs : Path → Bool) (src : Source) (a b : Format)
       (toP : Path) (i : Nat) (task : Task) (diag : Bool) (pp : Path)
       (x y : Format) (c : Bool),
       planPair cfg fs src a b toP i = some (task, diag) →
       task.kind = TaskKind.convert pp x y c →
       pp = withAddedExtension toP cfg.part_ext ∧
       (fs pp = true → (partReason, pp) ∈ task.pre_remove)) ∧
    (∀ (env : ExecEnv) (t : Task),
       ∃ tail, (execTask env t).2 = mkRemoveEvents t ++ tail ∧
         (∀ e ∈ tail, isRemoveEvent e = false) ∧
         (∀ e ∈ mkRemoveEvents t, isRemoveEvent e = true ∧ isEncodeEvent e = false)) := by
  constructor
  · intro cfg fs src a b toP i task diag pp x y c h hkind
    by_cases hcond : (a == b && !(cfg.forcedBitrates.contains a)) = true
    · obtain ⟨_, htask⟩ := planPair_transfer_eq cfg fs src a b toP i task diag h hcond
      subst htask
      cases hkind
    · have hcond' : (a == b && !(cfg.forcedBitrates.contains a)) = false := by
        revert hcond
        cases (a == b && !(cfg.forcedBitrates.contains a)) <;> simp
      obtain ⟨_, htask⟩ := planPair_convert_eq cfg fs src a b toP i task diag h hcond'
      subst htask
      simp only [TaskKind.convert.injEq] at hkind
      obtain ⟨hpp, _, _, _⟩ := hkind
      subst hpp
      refine ⟨rfl, fun hfsp => ?_⟩
      simp [hfsp]
  · intro env t
    obtain ⟨tail, h1, h2⟩ := execTask_events env t
    exact ⟨tail, h1, h2, fun e he => mkRemoveEvents_spec t e he⟩

/-- Witness for C4: the stale partial file's removal is queued in the
concrete planned task. -/
theorem partial_file_pre_removal_witness :
    (partReason, partMp3) ∈ existsTask.pre_remove :=
  ((partial_file_pre_removal.1 cfgNoForce fsAll srcFlac Format.flac Format.mp3
      destMp3 0 existsTask true partMp3 Format.flac Format.mp3 true
      (by decide) (by decide)).2 (by decide))

/-- C5 counterexample: when the destination already exists and `--force`
is not set, the planned Convert task starts with `converted = true` even
though no encoder has run, contrary to the claim that `converted = false`
is the initial state of every Convert task at planning time. -/
theorem convert_converted_at_planning :
    planPair cfgNoForce fsAll srcFlac Format.flac Format.mp3 destMp3 0 =
      some (existsTask, true) ∧
    existsTask.kind = TaskKind.convert partMp3 Format.flac Format.mp3 true := by
  refine ⟨by decide, by decide⟩

/-- C5 (amended): a planned Convert task starts with `converted` equal to
"destination exists and `--force` unset" — in particular `false` whenever
the destination does not pre-exist or `--force` is given — and in a
non-dry-run execution a pending Convert task's `converted` flag becomes
true only when the spawned encoder process reports success. -/
theorem converted_only_after_success :
    (∀ (cfg : PlanConfig) (fs : Path → Bool) (src : Source) (a b : Format)
       (toP : Path) (i : Nat) (task : Task) (diag : Bool) (pp : Path)
       (x y : Format) (c : Bool),
       planPair cfg fs src a b toP i = some (task, diag) →
       task.kind = TaskKind.convert pp x y c →
       c = (fs toP && !cfg.force)) ∧
    (∀ (env : ExecEnv) (t : Task) (pp : Path) (a b : Format),
       env.dryRun = false → t.kind = TaskKind.convert pp a b false →
       ∀ pp2 a2 b2, ((execTask env t).1).kind = TaskKind.convert pp2 a2 b2 true →
         env.spawn = some true) := by
  constructor
  · intro cfg fs src a b toP i task diag pp x y c h hkind
    by_cases hcond : (a == b && !(cfg.forcedBitrates.contains a)) = true
    · obtain ⟨_, htask⟩ := planPair_transfer_eq cfg fs src a b toP i task diag h hcond
      subst htask
      cases hkind
    · have hcond' : (a == b && !(cfg.forcedBitrates.contains a)) = false := by
        revert hcond
        cases (a == b && !(cfg.forcedBitrates.contains a)) <;> simp
      obtain ⟨_, htask⟩ := planPair_convert_eq cfg fs src a b toP i task diag h hcond'
      subst htask
      simp only [TaskKind.convert.injEq] at hkind
      exact hkind.2.2.2.symm
  · intro env t pp a b hdry hk pp2 a2 b2 h
    exact execTask_spawn env t pp a b hdry hk pp2 a2 b2 h

/-- Witness for C5: in a concrete non-dry run where a pending Convert task
ends converted, the environment's encoder indeed reported success. -/
theorem converted_only_after_success_witness : someEnv.spawn = some true :=
  converted_only_after_success.2 someEnv pendingTask partMp3 Format.flac Format.mp3
    rfl rfl partMp3 Format.flac Format.mp3 (by decide)

/-- C6: for a same-format pair outside the forced-re-encode set, the
planned operation is a Transfer whose kind is Link for a plain-file source
without `--move`, Move for a plain-file source with `--move`, and always
Copy for an archive-resident source; any other pair plans a Convert; and
`Db::move_to` refuses Link and Move for archive sources while Copy writes
the extracted bytes. -/
theorem transfer_kind_selection :
    (∀ (cfg : PlanConfig) (fs : Path → Bool) (src : Source) (a : Format)
       (toP : Path) (i : Nat) (task : Task) (diag : Bool),
       planPair cfg fs src a a toP i = some (task, diag) →
       cfg.forcedBitrates.contains a = false →
       ((∀ p, src = Source.file p → cfg.move = false →
           task.kind = TaskKind.transfer TransferKind.link) ∧
        (∀ p, src = Source.file p → cfg.move = true →
           task.kind = TaskKind.transfer TransferKind.move) ∧
        (∀ n r, src = Source.archive n r →
           task.kind = TaskKind.transfer TransferKind.copy))) ∧
    (∀ (cfg : PlanConfig) (fs : Path → Bool) (src : Source) (a b : Format)
       (toP : Path) (i : Nat) (task : Task) (diag : Bool),
       planPair cfg fs src a b toP i = some (task, diag) →
       (a == b && !(cfg.forcedBitrates.contains a)) = false →
       ∃ c, task.kind =
         TaskKind.convert (withAddedExtension toP cfg.part_ext) a b c) ∧
    (∀ (n : Nat) (r : Path) (toP : Path),
       Db.move_to (Source.archive n r) toP TransferKind.link =
         Except.error "cannot link from archive" ∧
       Db.move_to (Source.archive n r) toP TransferKind.move =
         Except.error "cannot move from archive" ∧
       Db.move_to (Source.archive n r) toP TransferKind.copy =
         Except.ok (FsAction.writeContents toP)) := by
  refine ⟨?_, ?_, fun n r toP => ⟨rfl, rfl, rfl⟩⟩
  · intro cfg fs src a toP i task diag h hforced
    have hcond : (a == a && !(cfg.forcedBitrates.contains a)) = true := by
      rw [hforced]
      simp
    obtain ⟨_, htask⟩ := planPair_transfer_eq cfg fs src a a toP i task diag h hcond
    subst htask
    refine ⟨?_, ?_, ?_⟩
    · intro p hsrc hmove
      subst hsrc
      simp [transferKindFor, hmove]
    · intro p hsrc hmove
      subst hsrc
      simp [transferKindFor, hmove]
    · intro n r hsrc
      subst hsrc
      simp [transferKindFor]
  · intro cfg fs src a b toP i task diag h hcond
    obtain ⟨_, htask⟩ := planPair_convert_eq cfg fs src a b toP i task diag h hcond
    subst htask
    exact ⟨_, rfl⟩

/-- Witness for C6: the concrete same-format plain-file pair plans a Link
transfer. -/
theorem transfer_kind_selection_witness :
    linkTask.kind = TaskKind.transfer TransferKind.link :=
  ((transfer_kind_selection.1 cfgNoForce fsNone (Source.file destMp3) Format.mp3
      outDest 0 linkTask false (by decide) (by decide)).1 destMp3 rfl rfl)

/-- C7 counterexample: a plain-file mp3 source already in the target
format, with no forced bitrate and whose computed destination equals its
own path (no effective path change), is silently dropped — planning
produces NO task at all, in particular not a Transfer with Link. -/
theorem self_conversion_dropped :
    planPair cfgNoForce fsNone (Source.file destMp3) Format.mp3 Format.mp3
      destMp3 0 = none := by
  decide

/-- C7 (amended): for a plain-file source already in the target format
with no forced bitrate for it and `--move` not requested, planning drops
the pair exactly when the computed destination equals the source path
(producing no task), and otherwise produces a Transfer task with kind
Link — never a Convert task. -/
theorem same_format_link_elision (cfg : PlanConfig) (fs : Path → Bool)
    (p : Path) (a : Format) (toP : Path) (i : Nat)
    (hmove : cfg.move = false) (hforced : cfg.forcedBitrates.contains a = false) :
    (planPair cfg fs (Source.file p) a a toP i = none ↔ toP = p) ∧
    (∀ task diag, planPair cfg fs (Source.file p) a a toP i = some (task, diag) →
       task.kind = TaskKind.transfer TransferKind.link ∧
       ∀ pp x y c, task.kind ≠ TaskKind.convert pp x y c) := by
  constructor
  · rw [planPair_none_iff]
    simp [Source.as_file, eq_comm]
  · intro task diag h
    have hcond : (a == a && !(cfg.forcedBitrates.contains a)) = true := by
      rw [hforced]
      simp
    obtain ⟨_, htask⟩ :=
      planPair_transfer_eq cfg fs (Source.file p) a a toP i task diag h hcond
    subst htask
    simp [transferKindFor, hmove]

/-- Witness for C7: at a concrete re-rooted destination, the pair is not
dropped (the destination differs from the source path). -/
theorem same_format_link_elision_witness :
    planPair cfgNoForce fsNone (Source.file destMp3) Format.mp3 Format.mp3
      outDest 0 = none ↔ outDest = destMp3 :=
  (same_format_link_elision cfgNoForce fsNone destMp3 Format.mp3 outDest 0
    rfl (by decide)).1

/-- C9 counterexample: for artist "A", album "B", year 2000, track 1 and
title "T", the album directory segment is "B (2000)" — it does not repeat
the artist, contrary to the claimed "Artist - Album (Year)" layout of the
second segment; and for the multi-disc record with media type "CD", disc 1
of 2, the disc directory is the separate segment "CD 01", not a "Disc N"
prefix of the file name. -/
theorem album_segment_without_artist :
    plainParts.append_to =
      [['A'], "B (2000)".toList, "A - B - 01 - T".toList] ∧
    plainParts.append_to[1]? = some "B (2000)".toList ∧
    some "B (2000)".toList ≠ some "A - B (2000)".toList ∧
    discParts.append_to =
      [['A'], "B (1999)".toList, "CD 01".toList, "A - B - 02 - T".toList] := by
  refine ⟨by decide, by decide, by decide, by decide⟩

/-- C9 (amended): when tag extraction succeeds the appended segments are
Artist / "Album (Year)" / [optional disc directory] / "Artist - Album -
Track - Title" (each sanitized; the format extension is appended by the
caller); the optional disc directory is emitted exactly when a disc
number/total pair is present with total greater than 1, and its content
is the optional media type followed by the zero-padded disc number. -/
theorem append_to_layout (p : Parts) :
    (p.append_to.length = if discCond p then 4 else 3) ∧
    p.append_to.head? = some (sanitize p.artist) ∧
    p.append_to.get? 1 =
      some (sanitize (p.album ++ (' ' :: '(' :: []) ++ intChars p.year ++
        (')' :: []))) ∧
    (∀ n total, p.set = some (n, total) → 1 < total →
       p.append_to.get? 2 = some (discSegment p n)) ∧
    p.append_to.getLast? =
      some (sanitize (p.artist ++ (' ' :: '-' :: ' ' :: []) ++ p.album ++
        (' ' :: '-' :: ' ' :: []) ++ fmt02 p.track ++
        (' ' :: '-' :: ' ' :: []) ++ p.title)) ∧
    (discCond p = true ↔ ∃ n total, p.set = some (n, total) ∧ 1 < total) := by
  refine ⟨?_, rfl, rfl, ?_, ?_, ?_⟩
  · rcases hset : p.set with _ | ⟨n, total⟩
    · simp [Parts.append_to, discCond, hset]
    · by_cases ht : 1 < total
      · simp [Parts.append_to, discCond, hset, ht]
      · simp [Parts.append_to, discCond, hset, ht]
  · intro n total hset ht
    simp only [Parts.append_to, hset, if_pos ht]
    rfl
  · rcases hset : p.set with _ | ⟨n, total⟩
    · simp only [Parts.append_to, hset]
      rfl
    · by_cases ht : 1 < total
      · simp only [Parts.append_to, hset, if_pos ht]
        rfl
      · simp only [Parts.append_to, hset, if_neg ht]
        rfl
  · rcases hset : p.set with _ | ⟨n, total⟩
    · simp [discCond, hset]
    · by_cases ht : 1 < total
      · refine ⟨fun _ => ⟨n, total, rfl, ht⟩, fun _ => ?_⟩
        simp [discCond, hset, ht]
      · simp only [discCond, hset]
        simp [ht]
        omega

/-- Witness for C9: for the concrete multi-disc record the third segment
is the disc directory — media type "CD" followed by the zero-padded disc
number. -/
theorem append_to_layout_witness :
    discParts.append_to.get? 2 = some (discSegment discParts 1) :=
  (append_to_layout discParts).2.2.2.1 1 2 rfl (by decide)

end Audiovert
